import Mathlib

/-!
Verification of the cryptosignal-news fetch/enrichment pipeline and
sliding-window rate limiter.  Each Go function relevant to the checked
properties is shallowly embedded as an executable Lean definition; the
theorems below settle the stated properties against those definitions.
-/

namespace CryptoNews

/-- Article as used by the deduplication and translation pipeline.  Only the
fields the verified operations inspect are carried (`models.Article` in Go
has many more, none of which the checked code paths read). -/
structure Article where
  id : Int
  guid : String
  deriving DecidableEq, Repr

/-- Result of one fetch job (`FetchJobResult` in worker.go).  The Go `error`
is modelled as `Option String` (`none` = nil error), carrying the message. -/
structure FetchJobResultM where
  sourceID : Int
  sourceKey : String
  articles : List Article
  error : Option String
  retryCount : Nat
  deriving DecidableEq, Repr

/-- Embedding of `BatchProcessor.CollectArticles` (worker.go): pools the
articles of error-free results in result order and separates the failed
results, preserving their relative order. -/
def CollectArticles : List FetchJobResultM → List Article × List FetchJobResultM
  | [] => ([], [])
  | r :: rest =>
    let p := CollectArticles rest
    match r.error with
    | some _ => (p.1, r :: p.2)
    | none => (r.articles ++ p.1, p.2)

/-- Loop body of `deduplicateArticles` (fetcher.go) with the `seen` map made
explicit: an article is kept iff its GUID has not been seen yet. -/
def dedupAux (seen : List String) : List Article → List Article
  | [] => []
  | a :: rest =>
    if a.guid ∈ seen then dedupAux seen rest
    else a :: dedupAux (a.guid :: seen) rest

/-- Embedding of `Fetcher.deduplicateArticles` (fetcher.go). -/
def deduplicateArticles (articles : List Article) : List Article :=
  dedupAux [] articles

theorem dedupAux_guid_not_seen {seen : List String} {l : List Article} {a : Article}
    (h : a ∈ dedupAux seen l) : a.guid ∉ seen := by
  induction l generalizing seen with
  | nil => simp [dedupAux] at h
  | cons b rest ih =>
    simp only [dedupAux] at h
    split at h
    · exact ih h
    · rcases List.mem_cons.mp h with rfl | h
      · assumption
      · intro hc
        exact ih h (List.mem_cons_of_mem _ hc)

theorem dedupAux_mem_find {seen : List String} {l : List Article} {a : Article}
    (h : a ∈ dedupAux seen l) :
    l.find? (fun x => x.guid == a.guid) = some a := by
  induction l generalizing seen with
  | nil => simp [dedupAux] at h
  | cons b rest ih =>
    by_cases hb : b.guid ∈ seen
    · rw [dedupAux, if_pos hb] at h
      have hne : ¬(b.guid == a.guid) = true := by
        intro hc
        exact dedupAux_guid_not_seen h (beq_iff_eq.mp hc ▸ hb)
      rw [List.find?_cons_of_neg (p := fun x : Article => x.guid == a.guid) _ hne]
      exact ih h
    · rw [dedupAux, if_neg hb] at h
      rcases List.mem_cons.mp h with rfl | h
      · exact List.find?_cons_of_pos _ (by simp)
      · have hnot := dedupAux_guid_not_seen h
        have hne : ¬(b.guid == a.guid) = true := by
          intro hc
          exact hnot (beq_iff_eq.mp hc ▸ List.mem_cons_self _ _)
        rw [List.find?_cons_of_neg (p := fun x : Article => x.guid == a.guid) _ hne]
        exact ih h

theorem dedupAux_guid_mem {seen : List String} {l : List Article} {g : String} :
    g ∈ (dedupAux seen l).map (fun a => a.guid) ↔
      g ∈ l.map (fun a => a.guid) ∧ g ∉ seen := by
  induction l generalizing seen with
  | nil => simp [dedupAux]
  | cons b rest ih =>
    by_cases hb : b.guid ∈ seen
    · rw [dedupAux, if_pos hb, ih]
      simp only [List.map_cons, List.mem_cons]
      constructor
      · rintro ⟨h1, h2⟩
        exact ⟨Or.inr h1, h2⟩
      · rintro ⟨h1 | h1, h2⟩
        · exact absurd (h1 ▸ hb) h2
        · exact ⟨h1, h2⟩
    · rw [dedupAux, if_neg hb]
      simp only [List.map_cons, List.mem_cons, ih]
      constructor
      · rintro (rfl | ⟨h1, h2⟩)
        · exact ⟨Or.inl rfl, hb⟩
        · exact ⟨Or.inr h1, fun hc => h2 (Or.inr hc)⟩
      · rintro ⟨h1 | h1, h2⟩
        · exact Or.inl h1
        · by_cases hgb : g = b.guid
          · exact Or.inl hgb
          · exact Or.inr ⟨h1, by simp [hgb, h2]⟩

theorem dedupAux_nodup {seen : List String} {l : List Article} :
    ((dedupAux seen l).map (fun a => a.guid)).Nodup := by
  induction l generalizing seen with
  | nil => simp [dedupAux]
  | cons b rest ih =>
    by_cases hb : b.guid ∈ seen
    · rw [dedupAux, if_pos hb]
      exact ih
    · rw [dedupAux, if_neg hb, List.map_cons]
      refine List.nodup_cons.mpr ⟨?_, ih⟩
      intro hc
      exact (dedupAux_guid_mem.mp hc).2 (List.mem_cons_self _ _)

/-- C1: for every list of fetch-job results, the orchestrator's final insert
batch (deduplication over the pooled articles) contains each GUID exactly
once — the batch's GUID list has no duplicates and covers exactly the GUIDs
of the pool — and every article kept is the first occurrence of its GUID in
the pooled order. -/
theorem dedup_batch_unique_first_wins (results : List FetchJobResultM) :
    ((deduplicateArticles (CollectArticles results).1).map (fun a => a.guid)).Nodup ∧
    (∀ g : String,
      g ∈ (deduplicateArticles (CollectArticles results).1).map (fun a => a.guid) ↔
        g ∈ ((CollectArticles results).1).map (fun a => a.guid)) ∧
    (∀ a ∈ deduplicateArticles (CollectArticles results).1,
      ((CollectArticles results).1).find? (fun x => x.guid == a.guid) = some a) := by
  refine ⟨dedupAux_nodup, ?_, ?_⟩
  · intro g
    rw [deduplicateArticles, dedupAux_guid_mem]
    simp
  · intro a ha
    exact dedupAux_mem_find ha

/-- Witness for C1 at a concrete pool with a GUID repeated across sources:
the kept article for GUID g1 is the first pooled occurrence. -/
theorem dedup_batch_unique_first_wins_witness :
    ((CollectArticles
        [⟨1, "s1", [⟨10, "g1"⟩, ⟨11, "g2"⟩], Option.none, 0⟩,
         ⟨2, "s2", [⟨20, "g1"⟩, ⟨21, "g3"⟩], Option.none, 0⟩]).1).find?
      (fun x => x.guid == (⟨10, "g1"⟩ : Article).guid) = some ⟨10, "g1"⟩ :=
  (dedup_batch_unique_first_wins
    [⟨1, "s1", [⟨10, "g1"⟩, ⟨11, "g2"⟩], Option.none, 0⟩,
     ⟨2, "s2", [⟨20, "g1"⟩, ⟨21, "g3"⟩], Option.none, 0⟩]).2.2
    ⟨10, "g1"⟩ (by decide)

/-! ### Sliding-window rate limiter (internal/ratelimit/limiter.go) -/

/-- Rate limit pair for a tier (`Limit` in limiter.go); a `requestsPerDay`
of -1 is the unlimited sentinel. -/
structure Limit where
  requestsPerMinute : Int
  requestsPerDay : Int
  deriving DecidableEq, Repr

def TierFree : String := "free"

def TierPro : String := "pro"

def TierEnterprise : String := "enterprise"

def TierAnonymous : String := "anonymous"

/-- Embedding of `DefaultLimits` (limiter.go), as an association list keyed
by tier name. -/
def DefaultLimits : List (String × Limit) :=
  [(TierFree, ⟨10, 500⟩), (TierPro, ⟨60, 10000⟩),
   (TierEnterprise, ⟨300, -1⟩), (TierAnonymous, ⟨5, 100⟩)]

/-- Tier lookup as performed by `Allow`/`GetRemaining`: a tier missing from
the table falls back to the anonymous tier's limits; if the anonymous entry
is itself missing, Go's map access yields the zero-valued `Limit`. -/
def lookupLimit (limits : List (String × Limit)) (tier : String) : Limit :=
  match limits.lookup tier with
  | some l => l
  | none =>
    match limits.lookup TierAnonymous with
    | some l => l
    | none => ⟨0, 0⟩

/-- Embedding of `GetLimitForTier` (limiter.go): same fallback as `Allow`. -/
def GetLimitForTier (limits : List (String × Limit)) (tier : String) : Limit :=
  match limits.lookup tier with
  | some l => l
  | none =>
    match limits.lookup TierAnonymous with
    | some l => l
    | none => ⟨0, 0⟩

/-- One minute in microseconds; the Go code scores entries by Unix-micro
timestamps and subtracts the window before purging. -/
def minuteMicro : Int := 60000000

/-- Twenty-four hours in microseconds. -/
def dayMicro : Int := 86400000000

/-- Embedding of `checkSlidingWindowLimit` (limiter.go) over an explicit
sorted-set state: entries with score at or below now - window are purged
(`ZRemRangeByScore -inf windowStart`), the survivors are counted; at or
above the limit the request is rejected and nothing is recorded, otherwise
the current timestamp is added (`ZAdd` is a no-op when the member already
exists).  Returns (allowed, remaining, new entry set). -/
def checkSlidingWindowLimit (now window limit : Int) (entries : List Int) :
    Bool × Int × List Int :=
  let windowStart := now - window
  let purged := entries.filter (fun t => windowStart < t)
  let count : Int := purged.length
  if limit ≤ count then (false, 0, purged)
  else (true, limit - count - 1,
    if now ∈ purged then purged else purged ++ [now])

/-- Embedding of `checkMinuteLimit` (limiter.go). -/
def checkMinuteLimit (now limit : Int) (entries : List Int) :
    Bool × Int × List Int :=
  checkSlidingWindowLimit now minuteMicro limit entries

/-- Embedding of `checkDayLimit` (limiter.go). -/
def checkDayLimit (now limit : Int) (entries : List Int) :
    Bool × Int × List Int :=
  checkSlidingWindowLimit now dayMicro limit entries

/-- A sliding-window check against the shared store: when the store is
unreachable the pipeline execution fails and limiter.go wraps the error. -/
def checkSlidingWindowLimitR (now window limit : Int)
    (store : Except String (List Int)) :
    Except String (Bool × Int × List Int) :=
  match store with
  | .error e => .error ("failed to execute rate limit check: " ++ e)
  | .ok entries => .ok (checkSlidingWindowLimit now window limit entries)

/-- Embedding of `Allow` (limiter.go): look up the tier with anonymous
fallback, check the per-minute window, then — only when the per-day limit
is positive (so the -1 sentinel skips it) — the per-day window.  Store
errors propagate to the caller. -/
def Allow (limits : List (String × Limit)) (tier : String) (now : Int)
    (minuteStore dayStore : Except String (List Int)) : Except String Bool :=
  let limit := lookupLimit limits tier
  match checkSlidingWindowLimitR now minuteMicro limit.requestsPerMinute minuteStore with
  | .error e => .error e
  | .ok r =>
    if r.1 = false then .ok false
    else if limit.requestsPerDay > 0 then
      match checkSlidingWindowLimitR now dayMicro limit.requestsPerDay dayStore with
      | .error e => .error e
      | .ok r2 => if r2.1 = false then .ok false else .ok true
    else .ok true

/-- What the middleware does with an inbound request. -/
inductive MwAction where
  | pass
  | reject429
  deriving DecidableEq, Repr

/-- Decision logic of `Middleware` (limiter.go): when `Allow` returns an
error the request is served anyway; otherwise it is rejected with 429 iff
`Allow` said false. -/
def middlewareDecision (allowResult : Except String Bool) : MwAction :=
  match allowResult with
  | .error _ => .pass
  | .ok true => .pass
  | .ok false => .reject429

/-- C2: an admission check first purges entries older than now - window and
counts the remainder; if the count has reached the tier's limit the request
is rejected and no timestamp is recorded, otherwise the current timestamp
is recorded and the request is admitted; hence the number of recorded
entries inside the trailing window never exceeds the limit. -/
theorem sliding_window_check_rejects_at_limit (now window limit : Int)
    (entries : List Int) :
    ((checkSlidingWindowLimit now window limit entries).1 = true ↔
      ((entries.filter (fun t => now - window < t)).length : Int) < limit) ∧
    ((checkSlidingWindowLimit now window limit entries).1 = false →
      (checkSlidingWindowLimit now window limit entries).2.2 =
        entries.filter (fun t => now - window < t)) ∧
    ((checkSlidingWindowLimit now window limit entries).1 = true →
      now ∈ (checkSlidingWindowLimit now window limit entries).2.2 ∧
      ∀ t ∈ (checkSlidingWindowLimit now window limit entries).2.2,
        t ∈ entries.filter (fun t => now - window < t) ∨ t = now) ∧
    (0 < window →
      ((entries.filter (fun t => now - window < t)).length : Int) ≤ limit →
      ((((checkSlidingWindowLimit now window limit entries).2.2).filter
          (fun t => now - window < t)).length : Int) ≤ limit) := by
  unfold checkSlidingWindowLimit
  by_cases hc : limit ≤ ((entries.filter (fun t => now - window < t)).length : Int)
  · rw [if_pos hc]
    refine ⟨by simpa using hc, fun _ => rfl, by simp, fun _ h => ?_⟩
    rw [List.filter_filter]
    simpa using h
  · rw [if_neg hc]
    push_neg at hc
    refine ⟨by simpa using hc, by simp, fun _ => ?_, fun hw _ => ?_⟩
    · by_cases hm : now ∈ entries.filter (fun t => now - window < t)
      · rw [if_pos hm]
        exact ⟨hm, fun t ht => Or.inl ht⟩
      · rw [if_neg hm]
        refine ⟨List.mem_append_right _ (List.mem_singleton_self _), ?_⟩
        intro t ht
        rcases List.mem_append.mp ht with ht | ht
        · exact Or.inl ht
        · exact Or.inr (List.mem_singleton.mp ht)
    · by_cases hm : now ∈ entries.filter (fun t => now - window < t)
      · rw [if_pos hm, List.filter_filter]
        simp only [decide_eq_true_eq, Bool.and_self]
        omega
      · rw [if_neg hm, List.filter_append, List.filter_filter]
        have hnow : (List.filter (fun t => decide (now - window < t)) [now]) = [now] := by
          simp
          omega
        rw [hnow]
        simp only [List.length_append, List.length_cons, List.length_nil]
        have : ((List.filter (fun t => decide (now - window < t) &&
            decide (now - window < t)) entries).length : Int) < limit := by
          simpa using hc
        push_cast
        omega

/-- Witness for C2: with limit 3 and three in-window entries the fourth
request is rejected and the in-window count stays at the limit. -/
theorem sliding_window_check_rejects_at_limit_witness :
    ((((checkSlidingWindowLimit 100 60 3 [30, 50, 90, 95]).2.2).filter
        (fun t => 100 - 60 < t)).length : Int) ≤ 3 :=
  (sliding_window_check_rejects_at_limit 100 60 3 [30, 50, 90, 95]).2.2.2
    (by decide) (by decide)

/-- C7 counterexample: the anonymous tier's default limits are 5 per minute
and 100 per day, not 10 and 500 as claimed. -/
theorem default_limits_anonymous_counterexample :
    DefaultLimits.lookup TierAnonymous = some ⟨5, 100⟩ ∧
      (⟨5, 100⟩ : Limit) ≠ ⟨10, 500⟩ := by
  decide

/-- C7 amended: in the default table the free tier gets 10 requests per
minute and 500 per day, the anonymous tier 5 per minute and 100 per day,
and the enterprise tier's per-day limit is the unlimited sentinel -1. -/
theorem default_limits_table :
    DefaultLimits.lookup TierFree = some ⟨10, 500⟩ ∧
    DefaultLimits.lookup TierAnonymous = some ⟨5, 100⟩ ∧
    DefaultLimits.lookup TierEnterprise = some ⟨300, -1⟩ := by
  decide

/-- C8: if the admission check against the shared store errors, the
middleware passes the request to the next handler instead of rejecting it;
in particular an unreachable store on the minute check always results in a
pass. -/
theorem middleware_fail_open (limits : List (String × Limit)) (tier : String)
    (now : Int) (ms ds : Except String (List Int)) :
    (∀ e, Allow limits tier now ms ds = Except.error e →
      middlewareDecision (Allow limits tier now ms ds) = MwAction.pass) ∧
    (∀ msg, middlewareDecision
        (Allow limits tier now (Except.error msg) ds) = MwAction.pass) := by
  constructor
  · intro e h
    rw [h]
    rfl
  · intro msg
    rfl

/-- Witness for C8: a concrete store outage is admitted. -/
theorem middleware_fail_open_witness :
    middlewareDecision
      (Allow DefaultLimits TierFree 0 (Except.error "redis down") (Except.ok [])) =
      MwAction.pass :=
  (middleware_fail_open DefaultLimits TierFree 0 (Except.error "redis down")
      (Except.ok [])).1
    ("failed to execute rate limit check: redis down") rfl

/-- C10: a tier absent from the limits table — the empty string included —
is treated exactly as the anonymous tier by both `GetLimitForTier` and
`Allow`, rather than being admitted unconditionally or failing. -/
theorem unknown_tier_uses_anonymous_limits (limits : List (String × Limit))
    (tier : String) (h : limits.lookup tier = Option.none) :
    GetLimitForTier limits tier = GetLimitForTier limits TierAnonymous ∧
    ∀ now ms ds, Allow limits tier now ms ds = Allow limits TierAnonymous now ms ds := by
  have hl : lookupLimit limits tier = lookupLimit limits TierAnonymous := by
    unfold lookupLimit
    rw [h]
    cases hA : limits.lookup TierAnonymous <;> simp [hA]
  constructor
  · show lookupLimit limits tier = lookupLimit limits TierAnonymous
    exact hl
  · intro now ms ds
    unfold Allow
    rw [hl]

/-- Witness for C10: the empty tier string falls back to the anonymous
limits of the default table. -/
theorem unknown_tier_uses_anonymous_limits_witness :
    GetLimitForTier DefaultLimits "" = GetLimitForTier DefaultLimits TierAnonymous :=
  (unknown_tier_uses_anonymous_limits DefaultLimits "" (by decide)).1

/-! ### Worker pool (internal/fetcher/worker.go) -/

/-- Environment of one fetch job: what the fetch returns on each attempt and
which context-expiry checks fire at each point of the retry loop. -/
structure JobEnv where
  sourceID : Int
  sourceKey : String
  articles : List Article
  fetchErr : Nat → Option String
  ctxDone : Nat → Bool
  jobCtxDoneAfter : Nat → Bool
  jobCtxDoneInBackoff : Nat → Bool
  cancelledAtGate : Bool

/-- Message of a Go context whose deadline has passed. -/
def ctxDeadlineMsg : String := "context deadline exceeded"

/-- Message of a cancelled Go context. -/
def ctxCanceledMsg : String := "context canceled"

/-- Retry loop of `executeJob` (worker.go), with `fuel` counting the attempts
still permitted (the Go loop runs while attempt ≤ maxRetries).  Before every
attempt but the first, the backoff select can observe the job context's
expiry and return the context error with the previous retry count; a failed
fetch records its error and the attempt index and stops retrying when either
context is observed expired.  The second component is the number of fetch
invocations actually performed. -/
def execAux (env : JobEnv) : Nat → Nat → Option String → Nat → Nat →
    FetchJobResultM × Nat
  | attempt, lastRetry, lastErr, calls, 0 =>
    let _ := attempt
    (⟨env.sourceID, env.sourceKey, [], lastErr, lastRetry⟩, calls)
  | attempt, lastRetry, lastErr, calls, fuel + 1 =>
    if 0 < attempt ∧ env.jobCtxDoneInBackoff attempt = true then
      (⟨env.sourceID, env.sourceKey, [], some ctxDeadlineMsg, lastRetry⟩, calls)
    else
      match env.fetchErr attempt with
      | none => (⟨env.sourceID, env.sourceKey, env.articles, none, attempt⟩, calls + 1)
      | some e =>
        if env.ctxDone attempt || env.jobCtxDoneAfter attempt then
          (⟨env.sourceID, env.sourceKey, [], some e, attempt⟩, calls + 1)
        else
          execAux env (attempt + 1) attempt (some e) (calls + 1) fuel

/-- The `maxRetries` constant of `executeJob` (worker.go). -/
def maxRetriesGo : Nat := 2

/-- Embedding of `executeJob` (worker.go). -/
def executeJob (env : JobEnv) : FetchJobResultM × Nat :=
  execAux env 0 0 none 0 (maxRetriesGo + 1)

/-- C3: a job whose fetch fails with the same timeout error on every attempt
— neither context ever observed expired, per the no-retry-past-deadline
rule — is fetched exactly 1 + maxRetries = 3 times and its result carries
that timeout error with retryCount = maxRetries = 2. -/
theorem always_timeout_three_attempts (env : JobEnv) (msg : String)
    (hf : ∀ i, env.fetchErr i = some msg)
    (hc : ∀ i, env.ctxDone i = false)
    (hj : ∀ i, env.jobCtxDoneAfter i = false)
    (hb : ∀ i, env.jobCtxDoneInBackoff i = false) :
    executeJob env =
      (⟨env.sourceID, env.sourceKey, [], some msg, maxRetriesGo⟩, 1 + maxRetriesGo) := by
  simp [executeJob, maxRetriesGo, execAux, hf, hc, hj, hb]

/-- Witness for C3 at a concrete environment failing every attempt. -/
theorem always_timeout_three_attempts_witness :
    executeJob
        ⟨7, "slow", [], fun _ => some "fetch timeout", fun _ => false,
          fun _ => false, fun _ => false, false⟩ =
      (⟨7, "slow", [], some "fetch timeout", maxRetriesGo⟩, 1 + maxRetriesGo) :=
  always_timeout_three_attempts
    ⟨7, "slow", [], fun _ => some "fetch timeout", fun _ => false,
      fun _ => false, fun _ => false, false⟩
    "fetch timeout" (fun _ => rfl) (fun _ => rfl) (fun _ => rfl) (fun _ => rfl)

/-- Zero value of `FetchJobResult`, as `make([]FetchJobResult, n)` fills the
results slice before any goroutine writes. -/
def zeroJobResult : FetchJobResultM := ⟨0, "", [], none, 0⟩

/-- Inert job environment used only for out-of-range index defaults. -/
def defaultJobEnv : JobEnv :=
  ⟨0, "", [], fun _ => none, fun _ => false, fun _ => false, fun _ => false, false⟩

/-- The value a pool goroutine stores at its own index (worker.go
`ProcessJobs`): the cancellation result if the parent context was done while
it waited at the semaphore, otherwise the outcome of `executeJob`. -/
def jobOutcome (env : JobEnv) : FetchJobResultM :=
  if env.cancelledAtGate then
    ⟨env.sourceID, env.sourceKey, [], some ctxCanceledMsg, 0⟩
  else (executeJob env).1

/-- Embedding of `ProcessJobs` (worker.go): a results slice of the jobs'
length is pre-allocated, the goroutines complete in an arbitrary order
(`order` lists indices in completion order; each goroutine writes only its
own index), and the filled slice is returned after the wait group. -/
def ProcessJobs (jobs : List JobEnv) (order : List Nat) : List FetchJobResultM :=
  order.foldl
    (fun acc i => acc.set i (jobOutcome (jobs.getD i defaultJobEnv)))
    (List.replicate jobs.length zeroJobResult)

theorem foldl_set_length (f : Nat → FetchJobResultM) (order : List Nat)
    (acc : List FetchJobResultM) :
    (order.foldl (fun a i => a.set i (f i)) acc).length = acc.length := by
  induction order generalizing acc with
  | nil => rfl
  | cons j rest ih => rw [List.foldl_cons, ih, List.length_set]

theorem foldl_set_preserve (f : Nat → FetchJobResultM) (order : List Nat)
    (acc : List FetchJobResultM) (i : Nat) (h : acc[i]? = some (f i)) :
    (order.foldl (fun a j => a.set j (f j)) acc)[i]? = some (f i) := by
  induction order generalizing acc with
  | nil => exact h
  | cons j rest ih =>
    rw [List.foldl_cons]
    refine ih _ ?_
    by_cases hij : i = j
    · subst hij
      rw [List.getElem?_set_self]
      exact (List.getElem?_eq_some.mp h).1
    · rw [List.getElem?_set_ne (fun hc => hij hc.symm)]
      exact h

theorem foldl_set_covers (f : Nat → FetchJobResultM) (order : List Nat)
    (acc : List FetchJobResultM) (i : Nat) (hlen : i < acc.length)
    (hmem : i ∈ order) :
    (order.foldl (fun a j => a.set j (f j)) acc)[i]? = some (f i) := by
  induction order generalizing acc with
  | nil => exact absurd hmem (List.not_mem_nil _)
  | cons j rest ih =>
    rw [List.foldl_cons]
    rcases List.mem_cons.mp hmem with rfl | hmem
    · refine foldl_set_preserve f rest _ i ?_
      rw [List.getElem?_set_self hlen]
    · exact ih _ (by rw [List.length_set]; exact hlen) hmem

/-- C4: whatever order the concurrently executed jobs complete in — any
completion order covering every index — the slice `ProcessJobs` returns has
the jobs' length and holds at index i exactly the result of job i. -/
theorem pool_results_index_aligned (jobs : List JobEnv) (order : List Nat)
    (hcover : ∀ i, i < jobs.length → i ∈ order) :
    (ProcessJobs jobs order).length = jobs.length ∧
    ∀ i, (h : i < jobs.length) →
      (ProcessJobs jobs order)[i]? = some (jobOutcome jobs[i]) := by
  constructor
  · rw [ProcessJobs, foldl_set_length (fun i => jobOutcome (jobs.getD i defaultJobEnv)),
      List.length_replicate]
  · intro i h
    have hcov := foldl_set_covers (fun i => jobOutcome (jobs.getD i defaultJobEnv))
      order (List.replicate jobs.length zeroJobResult) i
      (by rw [List.length_replicate]; exact h) (hcover i h)
    rw [ProcessJobs, hcov]
    show some (jobOutcome (jobs.getD i defaultJobEnv)) = _
    rw [List.getD_eq_getElem jobs defaultJobEnv h]

/-- Witness for C4: two jobs completing in reversed order still yield an
index-aligned results slice. -/
theorem pool_results_index_aligned_witness :
    (ProcessJobs
        [⟨1, "a", [], fun _ => none, fun _ => false, fun _ => false,
           fun _ => false, false⟩,
         ⟨2, "b", [], fun _ => none, fun _ => false, fun _ => false,
           fun _ => false, false⟩]
        [1, 0])[0]? =
      some (jobOutcome
        ⟨1, "a", [], fun _ => none, fun _ => false, fun _ => false,
          fun _ => false, false⟩) :=
  (pool_results_index_aligned
      [⟨1, "a", [], fun _ => none, fun _ => false, fun _ => false,
         fun _ => false, false⟩,
       ⟨2, "b", [], fun _ => none, fun _ => false, fun _ => false,
         fun _ => false, false⟩]
      [1, 0]
      (by
        intro i hi
        have : i = 0 ∨ i = 1 := by
          simp only [List.length_cons, List.length_nil] at hi
          omega
        rcases this with rfl | rfl <;> simp)).2 0 (by simp)

/-! ### Source backoff (`models.Source.GetBackoffDuration`) -/

/-- Two to the sixty-third, the magnitude bound of a two's-complement
64-bit integer. -/
def int64Half : Int := 9223372036854775808

/-- Wraparound of unbounded integer arithmetic to Go's 64-bit `int`. -/
def wrap64 (x : Int) : Int := (x + int64Half) % (2 * int64Half) - int64Half

/-- Embedding of `GetBackoffDuration` (models): below three errors no
backoff; otherwise minutes = 5 * (1 shifted left by errorCount - 3) in Go
`int` arithmetic — hence the 64-bit wraparound on the shift and on the
product — capped at 120 when larger, and converted to a nanosecond
duration. -/
def GetBackoffDuration (errorCount : Int) : Int :=
  if errorCount < 3 then 0
  else
    let minutes := wrap64 (5 * wrap64 (2 ^ (errorCount - 3).toNat))
    let capped := if minutes > 120 then 120 else minutes
    wrap64 (capped * 60000000000)

theorem wrap64_eq_self {x : Int} (h0 : 0 ≤ x) (h1 : x < int64Half) :
    wrap64 x = x := by
  rw [wrap64, Int.emod_eq_of_lt (by omega) (by omega)]
  omega

/-- C6 counterexample: at errorCount = 67 the shift count is 64, so the Go
shift wraps to zero and the function returns a zero duration instead of the
claimed 120-minute cap. -/
theorem backoff_overflow_counterexample :
    GetBackoffDuration 67 = 0 ∧ (0 : Int) ≠ 120 * 60000000000 := by
  constructor
  · decide
  · decide

/-- C6 amended: the backoff duration is 0 below three errors, and for
3 ≤ errorCount ≤ 63 it equals 5 * 2 ^ (errorCount - 3) minutes capped at
120 minutes, in exact arithmetic; from errorCount = 64 on, the Go int64
shift/product wraps and the cap no longer holds. -/
theorem backoff_duration_capped (e : Int) :
    (e < 3 → GetBackoffDuration e = 0) ∧
    (3 ≤ e → e ≤ 63 →
      GetBackoffDuration e =
        min (5 * 2 ^ (e - 3).toNat) 120 * 60000000000) := by
  constructor
  · intro h
    rw [GetBackoffDuration, if_pos h]
  · intro h3 h63
    rw [GetBackoffDuration, if_neg (by omega)]
    have hk : (e - 3).toNat ≤ 60 := Int.toNat_le.mpr (by omega)
    have hpow : (2 : Int) ^ (e - 3).toNat ≤ 2 ^ 60 :=
      pow_le_pow_right₀ (by norm_num) hk
    have hpos : (0 : Int) < 2 ^ (e - 3).toNat := pow_pos (by norm_num) _
    have hw1 : wrap64 ((2 : Int) ^ (e - 3).toNat) = 2 ^ (e - 3).toNat :=
      wrap64_eq_self (le_of_lt hpos)
        (lt_of_le_of_lt hpow (by norm_num [int64Half]))
    have hw2 : wrap64 (5 * (2 : Int) ^ (e - 3).toNat) = 5 * 2 ^ (e - 3).toNat :=
      wrap64_eq_self (by positivity)
        (by
          calc (5 : Int) * 2 ^ (e - 3).toNat ≤ 5 * 2 ^ 60 := by omega
            _ < int64Half := by norm_num [int64Half])
    simp only [hw1, hw2, gt_iff_lt]
    by_cases hcap : (120 : Int) < 5 * 2 ^ (e - 3).toNat
    · rw [if_pos hcap, min_eq_right (le_of_lt hcap),
        wrap64_eq_self (by norm_num) (by norm_num [int64Half])]
    · rw [if_neg hcap]
      push_neg at hcap
      rw [min_eq_left hcap]
      have h1 : (5 : Int) * 2 ^ (e - 3).toNat * 60000000000 ≤ 120 * 60000000000 :=
        mul_le_mul_of_nonneg_right hcap (by norm_num)
      have h2 : (0 : Int) ≤ 5 * 2 ^ (e - 3).toNat * 60000000000 := by positivity
      have h3 : (120 : Int) * 60000000000 < int64Half := by norm_num [int64Half]
      rw [wrap64_eq_self h2 (by omega)]

/-- Witness for C6 at errorCount = 5: two doublings past the base give
20 minutes of backoff. -/
theorem backoff_duration_capped_witness :
    GetBackoffDuration 5 = min (5 * 2 ^ ((5 : Int) - 3).toNat) 120 * 60000000000 :=
  (backoff_duration_capped 5).2 (by decide) (by decide)

/-! ### Translation worker (`TranslatorWorker` in the scheduler file) -/

/-- Translation status values persisted by the worker. -/
inductive TStatus where
  | pending
  | completed
  | failed
  deriving DecidableEq, Repr

/-- Error returned by a translation attempt: either a structured
`ai.APIError` carrying a retry-after duration in nanoseconds and an HTTP
status code, or a plain error; both carry the `Error()` message the string
heuristic inspects. -/
inductive TrError where
  | apiError (retryAfterNs : Int) (statusCode : Int) (msg : String)
  | plain (msg : String)
  deriving DecidableEq, Repr

/-- Nanoseconds per second (`time.Second`). -/
def nsPerSecond : Int := 1000000000

/-- Occurrence of a character pattern anywhere in a character list. -/
def substrAux (pat : List Char) : List Char → Bool
  | [] => pat.isEmpty
  | c :: rest => pat.isPrefixOf (c :: rest) || substrAux pat rest

/-- Embedding of Go `strings.Contains`. -/
def containsSub (s pat : String) : Bool := substrAux pat.data s.data

/-- Message heuristic of `extractRetryAfter` (scheduler file). -/
def hasRateLimitIndicator (s : String) : Bool :=
  containsSub s "429" || containsSub s "rate limit" || containsSub s "Rate limit"

/-- Embedding of `extractRetryAfter`: the structured retry-after field
first; failing that a 429 status defaults to 60 seconds; failing that the
message heuristic defaults to 60 seconds; anything else yields 0. -/
def extractRetryAfter : Option TrError → Int
  | none => 0
  | some (.apiError ra sc msg) =>
    if ra > 0 then ra
    else if sc = 429 then 60 * nsPerSecond
    else if hasRateLimitIndicator msg then 60 * nsPerSecond
    else 0
  | some (.plain msg) =>
    if hasRateLimitIndicator msg then 60 * nsPerSecond else 0

/-- Batch loop of `processBatch` (scheduler file).  `oracle a = none` means
`translateArticle` succeeded on article a (persisting status completed);
`some e` is the error it returned.  A failure whose extracted retry-after is
positive records the backoff deadline, marks the article failed and breaks;
any other failure marks the article failed and continues.  Returns the new
backoff deadline, the ids translation was attempted on (in order), and the
status updates written (in order). -/
def runBatch (now : Int) (oracle : Article → Option TrError) :
    List Article → Option Int × List Int × List (Int × TStatus)
  | [] => (none, [], [])
  | a :: rest =>
    match oracle a with
    | none =>
      let r := runBatch now oracle rest
      (r.1, a.id :: r.2.1, (a.id, TStatus.completed) :: r.2.2)
    | some e =>
      if 0 < extractRetryAfter (some e) then
        (some (now + extractRetryAfter (some e)), [a.id], [(a.id, TStatus.failed)])
      else
        let r := runBatch now oracle rest
        (r.1, a.id :: r.2.1, (a.id, TStatus.failed) :: r.2.2)

/-- Embedding of `processBatch` (scheduler file): a tick strictly inside the
backoff window returns at once without any translation call; otherwise the
deadline is cleared and the pending batch (possibly empty) is processed. -/
def processBatch (now : Int) (retryAfter : Option Int)
    (articles : List Article) (oracle : Article → Option TrError) :
    Option Int × List Int × List (Int × TStatus) :=
  match retryAfter with
  | some t =>
    if now < t then (some t, [], [])
    else if articles.isEmpty then (none, [], [])
    else runBatch now oracle articles
  | none =>
    if articles.isEmpty then (none, [], [])
    else runBatch now oracle articles

theorem runBatch_rate_limit (now : Int) (oracle : Article → Option TrError)
    (pre post : List Article) (a : Article)
    (hpre : ∀ b ∈ pre, extractRetryAfter (oracle b) = 0)
    (ha : 0 < extractRetryAfter (oracle a)) :
    runBatch now oracle (pre ++ a :: post) =
      (some (now + extractRetryAfter (oracle a)),
       pre.map (fun b => b.id) ++ [a.id],
       pre.map (fun b => (b.id,
           if oracle b = Option.none then TStatus.completed else TStatus.failed))
         ++ [(a.id, TStatus.failed)]) := by
  induction pre with
  | nil =>
    simp only [List.nil_append, List.map_nil]
    cases h : oracle a with
    | none =>
      rw [h] at ha
      simp [extractRetryAfter] at ha
    | some e =>
      rw [h] at ha
      simp only [runBatch, h, if_pos ha]
  | cons b pre' ih =>
    have hb := hpre b (List.mem_cons_self _ _)
    have hrest : ∀ b' ∈ pre', extractRetryAfter (oracle b') = 0 :=
      fun b' hb' => hpre b' (List.mem_cons_of_mem _ hb')
    simp only [List.cons_append, List.map_cons]
    cases hob : oracle b with
    | none =>
      simp only [runBatch, hob, ih hrest]
      simp
    | some e =>
      rw [hob] at hb
      have hnlt : ¬ 0 < extractRetryAfter (some e) := by omega
      simp only [runBatch, hob, if_neg hnlt, ih hrest]
      simp [hob]

/-- C5: when a translation attempt fails with a rate-limit condition
carrying retry duration d (every earlier article of the batch having no
rate-limit condition), the worker marks that article failed, attempts no
further article of the batch, and records backoff until now + d; every tick
strictly before now + d then makes no translation call and changes
nothing. -/
theorem translator_rate_limit_backoff (now : Int) (pre post : List Article)
    (a : Article) (oracle : Article → Option TrError)
    (hpre : ∀ b ∈ pre, extractRetryAfter (oracle b) = 0)
    (ha : 0 < extractRetryAfter (oracle a)) :
    processBatch now Option.none (pre ++ a :: post) oracle =
      (some (now + extractRetryAfter (oracle a)),
       pre.map (fun b => b.id) ++ [a.id],
       pre.map (fun b => (b.id,
           if oracle b = Option.none then TStatus.completed else TStatus.failed))
         ++ [(a.id, TStatus.failed)]) ∧
    (∀ t : Int, t < now + extractRetryAfter (oracle a) →
      ∀ (arts : List Article) (oracle2 : Article → Option TrError),
        processBatch t (some (now + extractRetryAfter (oracle a))) arts oracle2 =
          (some (now + extractRetryAfter (oracle a)), [], [])) := by
  constructor
  · have hne : (pre ++ a :: post).isEmpty = false := by
      cases pre <;> rfl
    simp only [processBatch, hne, Bool.false_eq_true, if_false]
    exact runBatch_rate_limit now oracle pre post a hpre ha
  · intro t ht arts oracle2
    simp only [processBatch, if_pos ht]

/-- Witness for C5: a 30-second rate limit on the second article of a
four-article batch stops the batch there and records the deadline. -/
theorem translator_rate_limit_backoff_witness :
    processBatch 0 Option.none
        [⟨1, "g1"⟩, ⟨3, "g3"⟩, ⟨4, "g4"⟩, ⟨5, "g5"⟩]
        (fun art =>
          if art.id = 3 then
            some (TrError.apiError (30 * nsPerSecond) 429 "Too Many Requests")
          else Option.none) =
      (some (0 + 30 * nsPerSecond), [1, 3],
       [(1, TStatus.completed), (3, TStatus.failed)]) :=
  (translator_rate_limit_backoff 0 [⟨1, "g1"⟩] [⟨4, "g4"⟩, ⟨5, "g5"⟩] ⟨3, "g3"⟩
      (fun art =>
        if art.id = 3 then
          some (TrError.apiError (30 * nsPerSecond) 429 "Too Many Requests")
        else Option.none)
      (by decide) (by decide)).1

/-! ### Coin extraction (`Enricher.ExtractMentionedCoins`) -/

/-- Word character of RE2's ASCII word boundary: letters, digits and the
underscore. -/
def isWordChar (c : Char) : Bool := c.isAlphanum || c == '_'

/-- The name occurs at the head of `text` and the character following it,
if any, is not a word character. -/
def matchAtHere (pat text : List Char) : Bool :=
  pat.isPrefixOf text &&
    (match text.drop pat.length with
     | [] => true
     | c :: _ => !isWordChar c)

/-- Scan for a whole-word occurrence: at each position the preceding
character (if any) must not be a word character and the name must match
there with a closing boundary. -/
def matchFrom (pat : List Char) : Option Char → List Char → Bool
  | _, [] => false
  | prev, c :: rest =>
    ((match prev with
      | none => true
      | some p => !isWordChar p) && matchAtHere pat (c :: rest)) ||
    matchFrom pat (some c) rest

/-- The compiled coin regexp of enricher `initCoinPatterns` — case
insensitive, both word boundaries — applied to the already-lowercased text
(every registered name variant begins and ends with a word character, so
each boundary demands a non-word neighbour or the text edge). -/
def wholeWordMatch (name : String) (text : List Char) : Bool :=
  matchFrom name.data Option.none text

/-- The coin table of `initCoinPatterns` (enricher): canonical symbol and
its lowercase name variants, in source order. -/
def coinPatterns : List (String × List String) :=
  [("BTC", ["bitcoin", "btc"]),
   ("ETH", ["ethereum", "ether", "eth"]),
   ("BNB", ["binance coin", "binance", "bnb"]),
   ("XRP", ["ripple", "xrp"]),
   ("SOL", ["solana", "sol"]),
   ("DOGE", ["dogecoin", "doge"]),
   ("ADA", ["cardano", "ada"]),
   ("AVAX", ["avalanche", "avax"]),
   ("DOT", ["polkadot", "dot"]),
   ("MATIC", ["polygon", "matic"]),
   ("LINK", ["chainlink", "link"]),
   ("UNI", ["uniswap", "uni"]),
   ("ATOM", ["cosmos", "atom"]),
   ("LTC", ["litecoin", "ltc"]),
   ("ETC", ["ethereum classic", "etc"]),
   ("XLM", ["stellar", "xlm"]),
   ("ALGO", ["algorand", "algo"]),
   ("VET", ["vechain", "vet"]),
   ("FIL", ["filecoin", "fil"]),
   ("NEAR", ["near protocol", "near"]),
   ("APT", ["aptos", "apt"]),
   ("ARB", ["arbitrum", "arb"]),
   ("OP", ["optimism"]),
   ("SUI", ["sui"]),
   ("SEI", ["sei"]),
   ("TIA", ["celestia", "tia"]),
   ("INJ", ["injective", "inj"]),
   ("PEPE", ["pepe"]),
   ("SHIB", ["shiba inu", "shib"]),
   ("BONK", ["bonk"]),
   ("WIF", ["dogwifhat", "wif"]),
   ("USDT", ["tether", "usdt"]),
   ("USDC", ["usdc", "usd coin"])]

/-- Inner loop of `ExtractMentionedCoins`: the first variant of a coin that
matches appends the symbol (once) to the discovery-ordered result. -/
def extractStep (lowerText : List Char) (acc : List String)
    (cp : String × List String) : List String :=
  if cp.2.any (fun name => wholeWordMatch name lowerText) then
    if cp.1 ∈ acc then acc else acc ++ [cp.1]
  else acc

/-- Embedding of `strings.ToLower` on the character list, restricted to the
ASCII case mapping (every registered coin-name variant is ASCII). -/
def lowerData (s : String) : List Char := s.data.map Char.toLower

/-- Embedding of `ExtractMentionedCoins` (enricher): the empty text returns
the empty non-nil slice; otherwise every coin's variants are matched against
the lowercased text in table order.  Go's `var result []string` stays the
nil slice when nothing matched — encoded as `none` — while any append makes
it a non-nil slice, encoded as `some`. -/
def ExtractMentionedCoins (text : String) : Option (List String) :=
  if text = "" then some []
  else if coinPatterns.foldl
      (fun acc cp => extractStep (lowerData text) acc cp) [] = [] then
    none
  else
    some (coinPatterns.foldl (fun acc cp => extractStep (lowerData text) acc cp) [])

/-- Embedding of `Article.SetMentionedCoins` (models): a nil slice is
normalized to the empty list before being stored on the article. -/
def SetMentionedCoins (coins : Option (List String)) : List String :=
  match coins with
  | none => []
  | some cs => cs

theorem foldl_extractStep_no_match (lower : List Char)
    (cps : List (String × List String))
    (hm : ∀ cp ∈ cps, ∀ name ∈ cp.2, wholeWordMatch name lower = false) :
    ∀ acc, cps.foldl (fun acc cp => extractStep lower acc cp) acc = acc := by
  induction cps with
  | nil => intro acc; rfl
  | cons cp rest ih =>
    intro acc
    rw [List.foldl_cons]
    have hany : cp.2.any (fun name => wholeWordMatch name lower) = false := by
      rw [List.any_eq_false]
      intro name hn
      simp [hm cp (List.mem_cons_self _ _) name hn]
    have hstep : extractStep lower acc cp = acc := by
      rw [extractStep, hany]
      simp
    rw [hstep]
    exact ih (fun cp' h' => hm cp' (List.mem_cons_of_mem _ h')) acc

/-- C9 counterexample: the non-empty text "hello" contains no coin-name
variant as a whole word, yet extraction returns Go's nil slice (`none`),
not the empty non-nil list the claim demands. -/
theorem extract_coins_nil_counterexample :
    "hello" ≠ "" ∧
    (∀ cp ∈ coinPatterns, ∀ name ∈ cp.2,
      wholeWordMatch name (lowerData "hello") = false) ∧
    ExtractMentionedCoins "hello" ≠ some [] ∧
    ExtractMentionedCoins "hello" = Option.none := by
  refine ⟨by decide, by decide, by decide, by decide⟩

/-- C9 amended: extraction on "Bitcoin and ETH rally" returns exactly
[BTC, ETH] in discovery order; on any non-empty text with no whole-word
variant occurrence the function returns the nil slice, which
`SetMentionedCoins` then normalizes to the empty list on the article. -/
theorem extract_coins_btc_eth_and_nil_normalized :
    ExtractMentionedCoins "Bitcoin and ETH rally" = some ["BTC", "ETH"] ∧
    ∀ text : String, text ≠ "" →
      (∀ cp ∈ coinPatterns, ∀ name ∈ cp.2,
        wholeWordMatch name (lowerData text) = false) →
      ExtractMentionedCoins text = Option.none ∧
      SetMentionedCoins (ExtractMentionedCoins text) = [] := by
  constructor
  · decide
  · intro text hne hmatch
    have hfold := foldl_extractStep_no_match (lowerData text) coinPatterns hmatch []
    have hnone : ExtractMentionedCoins text = Option.none := by
      rw [ExtractMentionedCoins, if_neg hne, if_pos hfold]
    exact ⟨hnone, by rw [hnone]; rfl⟩

/-- Witness for C9 at the no-match text "xyz": the stored coin list is the
empty list. -/
theorem extract_coins_btc_eth_and_nil_normalized_witness :
    SetMentionedCoins (ExtractMentionedCoins "xyz") = [] :=
  (extract_coins_btc_eth_and_nil_normalized.2 "xyz" (by decide) (by decide)).2

end CryptoNews
